import Mathlib

/-!
Verification development for the warehouse schema engine
(`src/schema.ts` / `src/schematype.ts`).

The TypeScript sources are shallowly embedded below: JSON values become the
inductive `Value`, host exceptions become an explicit error type `JsErr`
threaded through `Except`, the per-path closures that the engine pushes on
its stacks are defunctionalised into small inductive descriptors together
with an `apply` interpreter, and dynamic method lookup (`q$op` / `u$op`)
becomes string-keyed `Option`-valued tables on the `SchemaType` record.
-/

/-- A JavaScript/JSON value as manipulated by the engine.  `undefV` models
the host value `undefined`, which the engine distinguishes from `null`.
Numbers are modelled as integers, which covers every value exercised by
the schema engine claims. -/
inductive Value where
  | undefV : Value
  | null : Value
  | bool (b : Bool) : Value
  | num (n : Int) : Value
  | str (s : String) : Value
  | arr (xs : List Value) : Value
  | obj (fields : List (String × Value)) : Value

/-- True exactly for the host value `undefined`. -/
def Value.isUndefV : Value → Bool
  | .undefV => true
  | _ => false

/-- JavaScript `value == null`, true exactly for `null` and `undefined`. -/
def Value.isNullish : Value → Bool
  | .undefV => true
  | .null => true
  | _ => false

/-- JavaScript truthiness, restricted to the modelled value set. -/
def Value.truthy : Value → Bool
  | .undefV => false
  | .null => false
  | .bool b => b
  | .num n => n ≠ 0
  | .str s => s ≠ ""
  | .arr _ => true
  | .obj _ => true

/-- JavaScript strict equality `===` on the modelled values.  Scalars
compare structurally; arrays and objects compare by reference in the host,
which distinct literals never share, so they are modelled as unequal. -/
def valueEq : Value → Value → Bool
  | .undefV, .undefV => true
  | .null, .null => true
  | .bool a, .bool b => a == b
  | .num a, .num b => a == b
  | .str a, .str b => a == b
  | _, _ => false

/-- JavaScript `<` restricted to same-kind scalars (the only comparisons the
engine performs on well-typed documents); other combinations yield `false`. -/
def jsLt : Value → Value → Bool
  | .num a, .num b => a < b
  | .str a, .str b => a < b
  | .bool a, .bool b => (if a then (1 : Int) else 0) < (if b then (1 : Int) else 0)
  | _, _ => false

/-- JavaScript `>` restricted the same way as `jsLt`. -/
def jsGt : Value → Value → Bool
  | .num a, .num b => a > b
  | .str a, .str b => a > b
  | .bool a, .bool b => (if a then (1 : Int) else 0) > (if b then (1 : Int) else 0)
  | _, _ => false

/-- The host exceptions the engine can surface, by constructor name. -/
inductive JsErr where
  | typeError (msg : String) : JsErr
  | validationError (msg : String) : JsErr
  | populationError (msg : String) : JsErr
  deriving Repr, DecidableEq

/-- Look up a key in an association list, mirroring a JavaScript property
read `o[k]` on a plain object used as a map. -/
def lookupJs {α : Type} : List (String × α) → String → Option α
  | [], _ => none
  | (k, v) :: rest, key => if k = key then some v else lookupJs rest key

/-- Write a key in an association list, mirroring a JavaScript property
write `o[k] = v`: an existing key keeps its position and gets the new
value, a fresh key is appended (JS insertion order). -/
def jsInsert {α : Type} : List (String × α) → String → α → List (String × α)
  | [], key, v => [(key, v)]
  | (k, w) :: rest, key, v =>
      if k = key then (k, v) :: rest else (k, w) :: jsInsert rest key v

/-- Remove a key from an association list, mirroring `delete o[k]`. -/
def jsDelete {α : Type} : List (String × α) → String → List (String × α)
  | [], _ => []
  | (k, w) :: rest, key =>
      if k = key then rest else (k, w) :: jsDelete rest key

/-- Splits a character list on a separator character, keeping empty
segments, like the JavaScript `String.prototype.split` with a one-character
separator (`"".split` gives `[""]`, a trailing separator gives a trailing
empty segment). -/
def splitOnCharAux (sep : Char) : List Char → List (List Char)
  | [] => [[]]
  | c :: rest =>
      if c = sep then [] :: splitOnCharAux sep rest
      else
        match splitOnCharAux sep rest with
        | seg :: more => (c :: seg) :: more
        | [] => [[c]]

/-- `s.split(sep)` for a one-character separator. -/
def splitOnChar (sep : Char) (s : String) : List String :=
  (splitOnCharAux sep s.data).map String.mk

/-- JavaScript `s[0] === c`: whether the first character of a string is
`c` (false for the empty string). -/
def firstCharIs (c : Char) (s : String) : Bool :=
  match s.data with
  | x :: _ => x = c
  | [] => false

/-- Modelled from the spec: the path accessor `getProp` from `./util`
(whose source is not included).  The path is split on `.`; traversal walks
each key; reading a key on a non-mapping or a missing key yields
`undefined`. -/
def getPropKeys : List String → Value → Value
  | [], v => v
  | k :: ks, .obj fields => getPropKeys ks ((lookupJs fields k).getD .undefV)
  | _ :: ks, _ => getPropKeys ks .undefV

/-- Modelled from the spec: `getProp(doc, path)` splits `path` on `.` and
walks the document. -/
def getProp (doc : Value) (path : String) : Value :=
  getPropKeys (splitOnChar '.' path) doc

/-- Modelled from the spec: the path accessor `setProp` from `./util`
(source not included).  Missing intermediates are created as empty
mappings; an existing non-mapping intermediate raises; the leaf key is
written (possibly with `undefined`, which stores the key explicitly). -/
def setPropKeys : List String → Value → Value → Except JsErr Value
  | [], _, v => .ok v
  | [k], .obj fields, v => .ok (.obj (jsInsert fields k v))
  | [k], _, _ => .error (.typeError ("cannot set property " ++ k ++ " of a non-object"))
  | k :: ks, .obj fields, v =>
      let inner := (lookupJs fields k).getD (.obj [])
      let inner := match inner with
        | .undefV => Value.obj []
        | w => w
      match setPropKeys ks inner v with
      | .error e => .error e
      | .ok inner => .ok (.obj (jsInsert fields k inner))
  | k :: _, _, _ => .error (.typeError ("cannot set property " ++ k ++ " of a non-object"))

/-- Modelled from the spec: `setProp(doc, path, value)`. -/
def setProp (doc : Value) (path : String) (v : Value) : Except JsErr Value :=
  setPropKeys (splitOnChar '.' path) doc v

/-- Modelled from the spec: the path accessor `delProp` from `./util`
(source not included).  The leaf key is removed; empty parents are
preserved; a missing or non-mapping intermediate makes it a no-op. -/
def delPropKeys : List String → Value → Value
  | [], v => v
  | [k], .obj fields => .obj (jsDelete fields k)
  | _ :: _, v@(.undefV) => v
  | k :: ks, .obj fields =>
      match lookupJs fields k with
      | some inner => .obj (jsInsert fields k (delPropKeys ks inner))
      | none => .obj fields
  | _, v => v

/-- Modelled from the spec: `delProp(doc, path)`. -/
def delProp (doc : Value) (path : String) : Value :=
  delPropKeys (splitOnChar '.' path) doc

/-- The `default` option of a SchemaType: either a plain value or a
function producing one (`() => T`). -/
inductive DefaultSpec where
  | valD (v : Value) : DefaultSpec
  | fnD (f : Unit → Value) : DefaultSpec

/-- The options record carried by a SchemaType (`schematype.ts`
constructor): `required` (defaulting to false), the optional `default`,
and the optional `ref` consulted by population. -/
structure STOptions where
  required : Bool := false
  default : Option DefaultSpec := none
  ref : Option String := none

/-- The child SchemaType stored by the built-in `Array` type, as far as
the embedded code reads it (`_parsePopulate` reads `child.options.ref`). -/
structure SchemaTypeChild where
  name : String := ""
  options : STOptions := {}

/-- A query operator `q$op(value, query, data) -> bool`. -/
def QOpFn : Type := Value → Value → Value → Bool

/-- An update operator `u$op(value, update, data)`.  It returns the
replacement value for the path and (to accommodate `u$rename`, which
writes a second path through the accessor) the possibly-updated document;
accessor failures propagate as errors. -/
def UOpFn : Type := Value → Value → Value → Except JsErr (Value × Value)

/-- JavaScript `a > b ? 1 : a < b ? -1 : 0`, the base `compare`. -/
def baseCompare (a b : Value) : Int :=
  if jsGt a b then 1 else if jsLt a b then -1 else 0

/-- The base `match`: strict equality `value === query`. -/
def baseMatch (v q _data : Value) : Bool := valueEq v q

/-- The string-keyed registry of query operator methods defined on the
base `SchemaType` class (`schematype.ts`), including the prototype
aliases `q$exists`, `q$max`, `q$min`.  An unknown name yields `none`,
modelling an absent method. -/
def baseQop : String → Option QOpFn
  | "q$exist" => some fun v q _ => valueEq (.bool (!v.isNullish)) q
  | "q$exists" => some fun v q _ => valueEq (.bool (!v.isNullish)) q
  | "q$ne" => some fun v q d => !baseMatch v q d
  | "q$lt" => some fun v q _ => jsLt v q
  | "q$lte" => some fun v q _ => jsLt v q || valueEq v q
  | "q$gt" => some fun v q _ => jsGt v q
  | "q$gte" => some fun v q _ => jsGt v q || valueEq v q
  | "q$max" => some fun v q _ => jsLt v q || valueEq v q
  | "q$min" => some fun v q _ => jsGt v q || valueEq v q
  | "q$in" => some fun v q _ =>
      match q with
      | .arr xs => xs.any (fun x => valueEq x v)
      | _ => false
  | "q$nin" => some fun v q _ =>
      match q with
      | .arr xs => !xs.any (fun x => valueEq x v)
      | _ => true
  | _ => none

/-- The string-keyed registry of update operator methods defined on the
base `SchemaType` class: `u$set`, `u$unset`, `u$rename`. -/
def baseUop : String → Option UOpFn
  | "u$set" => some fun _ upd d => .ok (upd, d)
  | "u$unset" => some fun v upd d => .ok (if upd.truthy then .undefV else v, d)
  | "u$rename" => some fun v upd d =>
      match upd with
      | .str s =>
          if v.isUndefV then .ok (.undefV, d)
          else
            match setProp d s v with
            | .error e => .error e
            | .ok d => .ok (.undefV, d)
      | _ => .error (.typeError "rename target must be a string path")
  | _ => none

/-- A SchemaType instance: the name, the options, the optional `Array`
child, and the method suite.  `compare` and `matchv` default to the base
implementations; `qop` and `uop` are the operator registries (subclasses
extend them, missing methods are `none`). -/
structure SchemaType where
  name : String := ""
  options : STOptions := {}
  child : Option SchemaTypeChild := none
  compare : Value → Value → Int := baseCompare
  matchv : Value → Value → Value → Bool := baseMatch
  qop : String → Option QOpFn := baseQop
  uop : String → Option UOpFn := baseUop

/-- `new SchemaType(name)`: a bare base type with default options, as
synthesized by the query/update/sort compilers for unknown paths. -/
def baseSchemaType (name : String) : SchemaType := { name := name }

/-- The `this.default` function computed by the SchemaType constructor:
a function-valued `options.default` is used as-is (invoked anew on each
call), any other value is wrapped in a constant function, so an unset
default yields `undefined`. -/
def SchemaType.defaultF (t : SchemaType) : Unit → Value :=
  match t.options.default with
  | some (.fnD f) => f
  | some (.valD v) => fun _ => v
  | none => fun _ => .undefV

/-- `SchemaType.prototype.cast`: `null`/`undefined` is replaced by
`this.default()`, any other value is returned unchanged. -/
def SchemaType.cast (t : SchemaType) (v : Value) (_data : Value) : Value :=
  if v.isNullish then t.defaultF () else v

/-- `SchemaType.prototype.validate`: a required field that is
`null`/`undefined` throws a `ValidationError` naming the field; otherwise
the value is returned unchanged. -/
def SchemaType.validate (t : SchemaType) (v : Value) (_data : Value) : Except JsErr Value :=
  if t.options.required && v.isNullish then
    .error (.validationError ("`" ++ t.name ++ "` is required!"))
  else
    .ok v

/-- Modelled from the spec: the `Number` SchemaType (from `src/types`,
whose source is not included) implements the update operator `u$inc` by
adding the delta to the current value; its other methods are the base
ones.  Non-numeric additions are outside the behaviour any claim
exercises and are mapped to `undefined`. -/
def numberType (name : String) (options : STOptions := {}) : SchemaType :=
  { name := name
    options := options
    uop := fun k =>
      if k = "u$inc" then
        some fun v upd d =>
          match v, upd with
          | .num a, .num b => .ok (.num (a + b), d)
          | _, _ => .ok (.undefV, d)
      else baseUop k }

/-- The `paths` map of a Schema: dotted path name to SchemaType, in
insertion order. -/
def PathsMap : Type := List (String × SchemaType)

/-- `this.paths[name] || new SchemaType(name)`: the lookup-with-fallback
performed by the query compiler and by `sortStack` /
`updateStackOperator`. -/
def lookupPathD (paths : PathsMap) (name : String) : SchemaType :=
  (lookupJs paths name).getD (baseSchemaType name)

/-- `Object.keys` on a modelled value: field names of a plain object,
empty for anything else. -/
def objKeys : Value → List String
  | .obj fields => fields.map Prod.fst
  | _ => []

/-- The field list of a plain object, empty for anything else (used where
the source iterates `Object.keys(o)` and reads `o[key]`). -/
def objFields : Value → List (String × Value)
  | .obj fields => fields
  | _ => []

/-- The element list of an array value; a non-array has no `length`, so
the loops that iterate it run zero times. -/
def arrElems : Value → List Value
  | .arr xs => xs
  | _ => []

/-- `isPlainObject` from the `is-plain-object` package: true for a plain
object literal, false for arrays, scalars, `null` and `undefined`. -/
def isPlainObject : Value → Bool
  | .obj _ => true
  | _ => false

/-- A compiled query predicate, the defunctionalised form of the closures
`QueryParser` pushes on its stack:
`normal` is `queryStackNormal` (captured path type, path name, query
value); `opc` is `queryStackOperator` (captured path type, method name
`q$op`, path name, query value); `andc` is the conjunction closure
returned by `execQuery` and pushed by `$and`; `orc`, `norc`, `notc` are
the closures returned by `$or`, `$nor`, `$not`; `wherec` is the `$where`
wrapper (`none` when the supplied value is not callable, in which case
the call throws on application). -/
inductive Clause where
  | normal (path : SchemaType) (name : String) (q : Value) : Clause
  | opc (path : SchemaType) (qkey : String) (name : String) (q : Value) : Clause
  | andc (cs : List Clause) : Clause
  | orc (cs : List Clause) : Clause
  | norc (cs : List Clause) : Clause
  | notc (cs : List Clause) : Clause
  | wherec (f : Option (Value → Bool)) : Clause

/-- The payload of a top-level query key: an ordinary JSON value, or a
host function as passed to `$where` (functions are host values that the
JSON `Value` type cannot contain, so they are only representable at the
top level of a query document). -/
inductive QExpr where
  | val (v : Value) : QExpr
  | fn (f : Value → Bool) : QExpr

mutual

/-- `QueryParser.parseQuery` restricted to JSON-valued queries: compiles a
query document (its field list) into a stack of predicates. -/
def parseQueryV (paths : PathsMap) : List (String × Value) → List Clause
  | [] => []
  | (key, q) :: rest => parseQueryEntryV paths key q ++ parseQueryV paths rest
termination_by qs => sizeOf qs

/-- The body of `parseQuery`'s per-key `switch`.  The `$and`/`$or`/`$nor`
arms iterate the argument's elements (a non-array has no `length`, so the
loop body never runs); the `$not` arm recurses into the argument's keys. -/
def parseQueryEntryV (paths : PathsMap) (key : String) (q : Value) : List Clause :=
  if key = "$and" then
    match q with
    | .arr xs => parseAndArr paths xs
    | _ => []
  else if key = "$or" then
    match q with
    | .arr xs => [.orc (parseAndArr paths xs)]
    | _ => [.orc []]
  else if key = "$nor" then
    match q with
    | .arr xs => [.norc (parseAndArr paths xs)]
    | _ => [.norc []]
  else if key = "$not" then
    match q with
    | .obj fields => [.notc (parseQueryV paths fields)]
    | _ => [.notc []]
  else if key = "$where" then
    [.wherec none]
  else
    match q with
    | .obj fields => parseNormalQueryV paths fields key
    | _ => [.normal (lookupPathD paths key) key q]
termination_by sizeOf key + sizeOf q

/-- `QueryParser.$and` / `parseQueryArray`: each array element is compiled
with `execQuery`, whose returned closure conjoins the element's stack. -/
def parseAndArr (paths : PathsMap) : List Value → List Clause
  | [] => []
  | .obj fields :: rest => .andc (parseQueryV paths fields) :: parseAndArr paths rest
  | _ :: rest => .andc [] :: parseAndArr paths rest
termination_by xs => sizeOf xs

/-- `QueryParser.parseNormalQuery`: keys beginning with `$` become
operator invocations on the SchemaType at the current prefix; a
plain-object value recurses with the dotted-joined name
`pfx ++ "." ++ key` (unconditionally, even for an empty prefix);
anything else becomes an equality check at that name. -/
def parseNormalQueryV (paths : PathsMap) : List (String × Value) → String → List Clause
  | [], _ => []
  | (key, q) :: rest, pfx =>
      (if firstCharIs '$' key then
        [.opc (lookupPathD paths pfx) ("q" ++ key) pfx q]
      else
        match q with
        | .obj fields => parseNormalQueryV paths fields (pfx ++ "." ++ key)
        | _ => [.normal (lookupPathD paths (pfx ++ "." ++ key)) (pfx ++ "." ++ key) q])
      ++ parseNormalQueryV paths rest pfx
termination_by qs _ => sizeOf qs

end

mutual

/-- Runs one compiled predicate on a document, mirroring the closure
bodies: operator clauses look the method up at application time and throw
a TypeError when it is absent. -/
def applyClause (c : Clause) (d : Value) : Except JsErr Bool :=
  match c with
  | .normal path name q => .ok (path.matchv (getProp d name) q d)
  | .opc path qkey name q =>
      match path.qop qkey with
      | none => .error (.typeError ("path[" ++ qkey ++ "] is not a function"))
      | some f => .ok (f (getProp d name) q d)
  | .andc cs => andLoop cs d
  | .orc cs => orLoop cs d
  | .norc cs => norLoop cs d
  | .notc cs => notLoop cs d
  | .wherec f =>
      match f with
      | some f => .ok (f d)
      | none => .error (.typeError "where argument is not a function")

/-- The loop of the closure returned by `execQuery`: fails on the first
false predicate, passes when all pass. -/
def andLoop (cs : List Clause) (d : Value) : Except JsErr Bool :=
  match cs with
  | [] => .ok true
  | c :: rest =>
      match applyClause c d with
      | .error e => .error e
      | .ok true => andLoop rest d
      | .ok false => .ok false

/-- The loop of the closure returned by `$or`: passes on the first true
predicate. -/
def orLoop (cs : List Clause) (d : Value) : Except JsErr Bool :=
  match cs with
  | [] => .ok false
  | c :: rest =>
      match applyClause c d with
      | .error e => .error e
      | .ok true => .ok true
      | .ok false => orLoop rest d

/-- The loop of the closure returned by `$nor`: fails on the first true
predicate. -/
def norLoop (cs : List Clause) (d : Value) : Except JsErr Bool :=
  match cs with
  | [] => .ok true
  | c :: rest =>
      match applyClause c d with
      | .error e => .error e
      | .ok true => .ok false
      | .ok false => norLoop rest d

/-- The loop of the closure returned by `$not`: passes on the first false
predicate. -/
def notLoop (cs : List Clause) (d : Value) : Except JsErr Bool :=
  match cs with
  | [] => .ok false
  | c :: rest =>
      match applyClause c d with
      | .error e => .error e
      | .ok true => notLoop rest d
      | .ok false => .ok true

end

/-- `Schema._execQuery` on a JSON query document given as its field list:
compile the stack, then conjoin it over the document. -/
def execQueryFields (paths : PathsMap) (query : List (String × Value)) (d : Value) :
    Except JsErr Bool :=
  andLoop (parseQueryV paths query) d

/-- The top-level `parseQuery` including the `$where` case, whose payload
is a host function: every key is handled as in `parseQueryEntryV`, except
that a function payload under `$where` compiles to a callable wrapper
(and is treated as a non-plain-object scalar anywhere else). -/
def parseQueryTop (paths : PathsMap) : List (String × QExpr) → List Clause
  | [] => []
  | (key, .val q) :: rest => parseQueryEntryV paths key q ++ parseQueryTop paths rest
  | (key, .fn f) :: rest =>
      (if key = "$where" then [.wherec (some f)]
       else if key = "$and" || key = "$or" || key = "$nor" then []
       else if key = "$not" then [.notc []]
       else [.normal (lookupPathD paths key) key .undefV])
      ++ parseQueryTop paths rest

/-- A compiled update action, the defunctionalised form of the closures
`UpdateParser` pushes: `normal` is `updateStackNormal` (plain assignment
through the accessor); `opA` is `updateStackOperator` with the resolved
SchemaType, the method name `u$key`, the target field and the operator
argument.  The field is an `Option` because the inline-operator branch of
`parseUpdate` indexes the inner field list with the outer loop variable,
which can produce the host value `undefined` as the field name. -/
inductive UAction where
  | normal (name : String) (update : Value) : UAction
  | opA (path : SchemaType) (ukey : String) (key : Option String) (update : Value) : UAction

/-- `UpdateParser.updateStackOperator`: resolves
`path_ || new SchemaType(key)` (a `SchemaType` constructed with an
`undefined` name falls back to the default name `""`). -/
def updateStackOperator (pathO : Option SchemaType) (ukey : String) (key : Option String)
    (update : Value) : UAction :=
  .opA (pathO.getD (baseSchemaType (key.getD ""))) ukey key update

/-- `paths[field]` where `field` may be the host value `undefined`
(property access with an undefined key reads the key "undefined", which
the paths map never contains for well-formed schemas). -/
def lookupOptKey (paths : PathsMap) : Option String → Option SchemaType
  | some k => lookupJs paths k
  | none => none

/-- `update[field]` where `field` may be `undefined`: a present key reads
its value, everything else reads `undefined`. -/
def getFieldOpt (update : Value) : Option String → Value
  | some k => (lookupJs (objFields update) k).getD .undefV
  | none => .undefV

/-- `UpdateParser.parseUpdate`, with the outer loop index `i` made
explicit because the inline-operator branch reads `fields[i]` (the OUTER
index) where the enclosing loop runs `j` over `fields` — the source's
indexing slip.  Since the pushed action does not depend on `j`, each of
the `fields.length` iterations pushes the same action, modelled with
`List.replicate`. -/
def parseUpdateGo (paths : PathsMap) (pfx : String) : Nat → List (String × Value) → List UAction
  | _, [] => []
  | i, (key, update) :: rest =>
      (if firstCharIs '$' key then
        let ukey := "u" ++ key
        if pfx ≠ "" then
          let pfxNoDot := String.mk pfx.data.dropLast
          [updateStackOperator (lookupJs paths pfxNoDot) ukey (some pfxNoDot) update]
        else
          let fields := objKeys update
          List.replicate fields.length
            (updateStackOperator (lookupOptKey paths (fields.get? i)) ukey (fields.get? i)
              (getFieldOpt update (fields.get? i)))
      else
        match update with
        | .obj ufields => parseUpdateGo paths (pfx ++ key ++ ".") 0 ufields
        | _ => [.normal (pfx ++ key) update])
      ++ parseUpdateGo paths pfx (i + 1) rest
termination_by _ l => sizeOf l

/-- `Schema._parseUpdate` on an update document given as its field
list. -/
def parseUpdate (paths : PathsMap) (updates : List (String × Value)) : List UAction :=
  parseUpdateGo paths "" 0 updates

/-- Runs one compiled update action on a document.  For an operator
action, JavaScript evaluates the call's arguments before the call, so an
`undefined` field name makes the accessor throw first; an absent
`u$op` method then makes the call itself throw; both happen only now, at
application time. -/
def applyUAction (a : UAction) (d : Value) : Except JsErr Value :=
  match a with
  | .normal name update => setProp d name update
  | .opA path ukey key update =>
      match key with
      | none => .error (.typeError "path must be a string")
      | some key =>
          match path.uop ukey with
          | none => .error (.typeError ("path[" ++ ukey ++ "] is not a function"))
          | some f =>
              match f (getProp d key) update d with
              | .error e => .error e
              | .ok (result, d) => setProp d key result

/-- Applies a compiled update stack in order, propagating the first
error. -/
def applyUpdates : List UAction → Value → Except JsErr Value
  | [], d => .ok d
  | a :: rest, d =>
      match applyUAction a d with
      | .error e => .error e
      | .ok d => applyUpdates rest d

/-- A scalar sorting direction (`1 | "asc" | -1 | "desc"` and anything
else the host allows in those positions). -/
inductive SortDir where
  | num (n : Int) : SortDir
  | str (s : String) : SortDir
  deriving Repr, DecidableEq

/-- A value of a sort document: a scalar direction or a nested sort
document (`typeof sort === "object"`). -/
inductive SortV where
  | dir (d : SortDir) : SortV
  | nested (entries : List (String × SortV)) : SortV

/-- A compiled per-path comparator, the defunctionalised closure returned
by `sortStack`: the resolved SchemaType, the path, and the descending
flag. -/
structure SortCmp where
  path : SchemaType
  key : String
  descending : Bool

/-- `sortStack(path_, key, sort)`: resolves `path_ || new SchemaType(key)`
and computes `descending = sort === "desc" || sort === -1`. -/
def sortStack (pathO : Option SchemaType) (key : String) (sort : SortDir) : SortCmp :=
  { path := pathO.getD (baseSchemaType key)
    key := key
    descending := sort = .str "desc" || sort = .num (-1) }

/-- The body of the closure returned by `sortStack`:
`descending && result ? result * -1 : result` applied to
`path.compare(getProp(a, key), getProp(b, key))`. -/
def applySortCmp (c : SortCmp) (a b : Value) : Int :=
  let result := c.path.compare (getProp a c.key) (getProp b c.key)
  if c.descending && result ≠ 0 then result * -1 else result

/-- `execSortStack`: runs the comparators in order and breaks at the
first non-zero result; with an empty stack the loop variable is never
assigned and the host returns `undefined`, modelled as `none`. -/
def execSortStack : List SortCmp → Value → Value → Option Int
  | [], _, _ => none
  | [c], a, b => some (applySortCmp c a b)
  | c :: rest, a, b =>
      let r := applySortCmp c a b
      if r ≠ 0 then some r else execSortStack rest a b

/-- `Schema._parseSort`: nested sort documents recurse with the prefix
`name ++ "."`; scalar directions push `sortStack(paths[name], name,
sort)`. -/
def parseSortD (paths : PathsMap) (pfx : String) : List (String × SortV) → List SortCmp
  | [] => []
  | (key, .nested entries) :: rest =>
      parseSortD paths (pfx ++ key ++ ".") entries ++ parseSortD paths pfx rest
  | (key, .dir d) :: rest =>
      sortStack (lookupJs paths (pfx ++ key)) (pfx ++ key) d :: parseSortD paths pfx rest
termination_by l => sizeOf l

/-- `Schema._execSort`: compile the stack and combine it. -/
def execSortD (paths : PathsMap) (sorts : List (String × SortV)) (a b : Value) : Option Int :=
  execSortStack (parseSortD paths "" sorts) a b

/-- The mutable state of a `Schema` that the registration claims are
about: the `paths` map and the four cache stacks.  Each stack entry is
the `(name, type)` pair the corresponding closure captured when
`_updateStack` pushed it. -/
structure SchemaState where
  paths : PathsMap := []
  getterS : List (String × SchemaType) := []
  setterS : List (String × SchemaType) := []
  importS : List (String × SchemaType) := []
  exportS : List (String × SchemaType) := []

/-- `Schema._updateStack`: pushes one closure per stack, each capturing
the installed `(name, type)`. -/
def updateStackS (s : SchemaState) (name : String) (t : SchemaType) : SchemaState :=
  { s with
    getterS := s.getterS ++ [(name, t)]
    setterS := s.setterS ++ [(name, t)]
    importS := s.importS ++ [(name, t)]
    exportS := s.exportS ++ [(name, t)] }

/-- The installation step shared by every branch of `Schema.path`:
`this.paths[name] = type; this._updateStack(name, type)`. -/
def installPath (s : SchemaState) (name : String) (t : SchemaType) : SchemaState :=
  updateStackS { s with paths := jsInsert s.paths name t } name t

/-- Modelled from the spec: `new Types.Array(name, { child })` (the
`types` directory is not included); only the fields the embedded code
reads — the name, the options, the child with its options — are kept. -/
def mkArrayType (name : String) (child : SchemaType) : SchemaType :=
  { name := name
    child := some { name := child.name, options := child.options } }

/-- Modelled from the spec: `new Types.Object()` (the `types` directory is
not included); constructed with no name and default options. -/
def objectType : SchemaType := {}

/-- A schema path declaration, covering the forms `Schema.path` accepts:
a SchemaType instance; a constructor function (whose `getSchemaType`
instantiation is abstracted as a name-indexed factory, covering both
built-in and user types); an array declaration with an optional child
factory; a mapping with a `type` field (again via its factory); a plain
mapping without `type`, holding nested declarations. -/
inductive Decl where
  | inst (t : SchemaType) : Decl
  | fnDecl (mk : String → SchemaType) : Decl
  | arrDecl (childMk : Option (String → SchemaType)) : Decl
  | typedDecl (mk : String → SchemaType) : Decl
  | objDecl (fields : List (String × Decl)) : Decl

mutual

/-- `Schema.path(name, obj)` for a non-null declaration: build the type,
install it, update the stacks, and recurse into a non-empty plain
mapping with the prefix `name ++ "."` (an empty mapping sets
`nested = false`; recursing into an empty field list is the identity, so
both cases are covered by one equation). -/
def pathOne (s : SchemaState) (name : String) (d : Decl) : SchemaState :=
  match d with
  | .inst t => installPath s name t
  | .fnDecl mk => installPath s name (mk name)
  | .typedDecl mk => installPath s name (mk name)
  | .arrDecl childMk =>
      let child := match childMk with
        | some mk => mk name
        | none => baseSchemaType name
      installPath s name (mkArrayType name child)
  | .objDecl fields => addMany (installPath s name objectType) (name ++ ".") fields
termination_by sizeOf d

/-- `Schema.add(schema, prefix)`: installs `prefix + key` for each entry
(returning immediately on an empty mapping). -/
def addMany (s : SchemaState) (pfx : String) : List (String × Decl) → SchemaState
  | [] => s
  | (key, d) :: rest => addMany (pathOne s (pfx ++ key) d) pfx rest
termination_by l => sizeOf l

end

/-- A sequence of `add(decl)` calls on a schema. -/
def applyAdds (s : SchemaState) : List (List (String × Decl)) → SchemaState
  | [] => s
  | decl :: rest => applyAdds (addMany s "" decl) rest

/-- The body of the closure `_updateStack` pushes on `stacks.setter`:
read the value, `validate` it (letting a thrown `ValidationError`
propagate), write the result back when it is defined, delete the path
otherwise. -/
def setterStep (name : String) (t : SchemaType) (d : Value) : Except JsErr Value :=
  let value := getProp d name
  match t.validate value d with
  | .error e => .error e
  | .ok result =>
      if result.isUndefV then .ok (delProp d name)
      else setProp d name result

/-- `Schema._applySetters`: run the setter stack in insertion order; an
error thrown by any closure aborts the loop and propagates to the
caller. -/
def applySettersList : List (String × SchemaType) → Value → Except JsErr Value
  | [], d => .ok d
  | (name, t) :: rest, d =>
      match setterStep name t d with
      | .error e => .error e
      | .ok d => applySettersList rest d

/-- `Schema._applySetters` on a schema state. -/
def applySettersS (s : SchemaState) (d : Value) : Except JsErr Value :=
  applySettersList s.setterS d

/-- A populate option mapping, as far as `_parsePopulate` reads and
writes it: the `path` and `model` fields (`none` models an absent
field). -/
structure PopItem where
  path : Option String := none
  model : Option String := none
  deriving Repr, DecidableEq

/-- An element of an array populate expression: a string or an option
mapping. -/
inductive PopElem where
  | strI (s : String) : PopElem
  | objI (it : PopItem) : PopElem

/-- A populate expression: a space-separated string, an array of strings
or mappings, or a single mapping. -/
inductive PopExpr where
  | strE (s : String) : PopExpr
  | arrE (items : List PopElem) : PopExpr
  | objE (it : PopItem) : PopExpr

/-- The normalisation loop of `_parsePopulate`: a string is split on
spaces into `{ path }` items, array elements are wrapped when they are
strings, a single mapping becomes a one-element list. -/
def normalizePop : PopExpr → List PopItem
  | .strE s => (splitOnChar ' ' s).map fun p => { path := some p }
  | .arrE items => items.map fun
      | .strI s => { path := some s }
      | .objI it => it
  | .objE it => [it]

/-- `path.child ? path.child.options.ref : path.options.ref`. -/
def refOfType (t : SchemaType) : Option String :=
  match t.child with
  | some c => c.options.ref
  | none => t.options.ref

/-- The checking loop of `_parsePopulate`: a falsy `path` (absent or
empty) raises `PopulationError("path is required")`; with no `model`, the
SchemaType at `paths[path]` is dereferenced — when the path is not
registered this is a property read on `undefined` and throws a
`TypeError` — and its (or its array child's) `options.ref` becomes the
model, a missing ref raising `PopulationError("model is required")`. -/
def procItems (paths : PathsMap) : List PopItem → Except JsErr (List PopItem)
  | [] => .ok []
  | item :: rest =>
      match item.path with
      | none => .error (.populationError "path is required")
      | some key =>
          if key = "" then .error (.populationError "path is required")
          else
            match item.model with
            | some _ =>
                match procItems paths rest with
                | .error e => .error e
                | .ok r => .ok (item :: r)
            | none =>
                match lookupJs paths key with
                | none => .error (.typeError "Cannot read properties of undefined")
                | some t =>
                    match refOfType t with
                    | none => .error (.populationError "model is required")
                    | some r =>
                        match procItems paths rest with
                        | .error e => .error e
                        | .ok rs => .ok ({ item with model := some r } :: rs)

/-- `Schema._parsePopulate`: normalise, then check and fill each item in
input order. -/
def parsePopulate (paths : PathsMap) (expr : PopExpr) : Except JsErr (List PopItem) :=
  procItems paths (normalizePop expr)

/-- The path name a compiled query clause reads (for the two per-path
clause forms). -/
def clauseName : Clause → Option String
  | .normal _ n _ => some n
  | .opc _ _ n _ => some n
  | _ => none

/-- The path a compiled update action targets; `none` is the host value
`undefined` produced by the inline-operator indexing slip. -/
def actionTarget : UAction → Option String
  | .normal n _ => some n
  | .opA _ _ k _ => k

/-- The operator method name (`u$op`) a compiled update action invokes,
`none` for a plain assignment. -/
def actionMethod : UAction → Option String
  | .normal _ _ => none
  | .opA _ u _ _ => some u

/-- The paths map for the update example of claim C1: `age` and `visits`
both carry the Number type. -/
def pathsC1 : PathsMap := [("age", numberType "age"), ("visits", numberType "visits")]

/-- The update document of claim C1. -/
def updC1 : List (String × Value) :=
  [("$set", .obj [("age", .num 31)]), ("$inc", .obj [("visits", .num 1)])]

/-- The starting document of claim C1. -/
def docC1 : Value := .obj [("age", .num 30), ("visits", .num 5)]

/-- Whether a scalar sort direction is descending
(`sort === "desc" || sort === -1`). -/
def isDescDir : SortDir → Bool
  | .str s => s = "desc"
  | .num n => n = -1

/-- The per-entry comparator described by the spec for claim C8, written
from the spec's words: invoke the SchemaType's `compare` on the values
extracted at the path, negating for a descending direction. -/
def specEntryCmp (paths : PathsMap) (key : String) (d : SortDir) (a b : Value) : Int :=
  let t := (lookupJs paths key).getD (baseSchemaType key)
  let r := t.compare (getProp a key) (getProp b key)
  if isDescDir d then -r else r

/-- The combined comparator described by the spec for claim C8: evaluate
the per-entry comparators in declaration order and return the first
non-zero result (zero when all are zero). -/
def specSortCmp (paths : PathsMap) : List (String × SortDir) → Value → Value → Int
  | [], _, _ => 0
  | (key, d) :: rest, a, b =>
      let r := specEntryCmp paths key d a b
      if r ≠ 0 then r else specSortCmp paths rest a b

/-- Whether a populate item passes `_parsePopulate`'s checks: a truthy
path, and either an explicit model or a registered path whose (or whose
array child's) `options.ref` is present. -/
def itemOkP (paths : PathsMap) (it : PopItem) : Bool :=
  match it.path with
  | none => false
  | some k =>
      k ≠ "" &&
        (it.model.isSome ||
          match lookupJs paths k with
          | some t => (refOfType t).isSome
          | none => false)

/-- The model-filling step of `_parsePopulate` on one passing item: an
explicit model is kept, otherwise the registered type's (or its array
child's) `options.ref` is written into the item. -/
def fillItem (paths : PathsMap) (it : PopItem) : PopItem :=
  match it.model with
  | some _ => it
  | none =>
      { it with
        model :=
          match it.path with
          | some k =>
              match lookupJs paths k with
              | some t => refOfType t
              | none => none
          | none => none }

mutual

/-- The full path names a declaration installs, in installation
(preorder) order. -/
def declNames (name : String) (d : Decl) : List String :=
  match d with
  | .objDecl fields => name :: manyNames (name ++ ".") fields
  | _ => [name]
termination_by sizeOf d

/-- The full path names an `add` call installs, in order. -/
def manyNames (pfx : String) : List (String × Decl) → List String
  | [] => []
  | (key, d) :: rest => declNames (pfx ++ key) d ++ manyNames pfx rest
termination_by l => sizeOf l

end

/-- The full path names a sequence of `add` calls installs, in order. -/
def addsNames : List (List (String × Decl)) → List String
  | [] => []
  | decl :: rest => manyNames "" decl ++ addsNames rest

/-- Folds JavaScript-object key insertion over a list of keys: an already
present key leaves the key list unchanged, a fresh key is appended. -/
def insertKeys : List String → List String → List String
  | ks, [] => ks
  | ks, n :: rest => insertKeys (if n ∈ ks then ks else ks ++ [n]) rest

/-- C4: for the query document with the empty top-level key, whose value
is a plain mapping, the nested normal-query recursion joins the prefix
and the inner key as `prefix ++ "." ++ key` even though the prefix is
empty, so the compiled clause reads the path ".a" (which begins with a
dot): the compiled predicate accepts a document storing `a` under the
empty-string key and rejects one storing `a` at the top level. -/
theorem c4_nested_query_leading_dot :
    (parseQueryV [] [("", .obj [("a", .num 1)])]).map clauseName = [some ".a"]
    ∧ firstCharIs '.' ".a" = true
    ∧ execQueryFields [] [("", .obj [("a", .num 1)])] (.obj [("", .obj [("a", .num 1)])]) = .ok true
    ∧ execQueryFields [] [("", .obj [("a", .num 1)])] (.obj [("a", .num 1)]) = .ok false := by
  refine ⟨?_, rfl, ?_, ?_⟩ <;>
    simp +decide [parseQueryV, parseQueryEntryV, parseNormalQueryV, clauseName, execQueryFields,
      andLoop, applyClause, getProp, splitOnChar, splitOnCharAux, getPropKeys, lookupJs,
      lookupPathD, baseSchemaType, baseMatch, valueEq]

/-- C6: for every base SchemaType `t` and value `v`, `t.cast v` returns
`v` unchanged when `v` is neither null nor undefined; when `v` is nullish
it returns `t.default()` — which invokes a function-valued
`options.default` — and returns undefined when no default was
configured. -/
theorem c6_cast_default (t : SchemaType) (v d : Value) :
    (v.isNullish = false → t.cast v d = v)
    ∧ (v.isNullish = true → t.cast v d = t.defaultF ())
    ∧ (∀ f, t.options.default = some (.fnD f) → v.isNullish = true → t.cast v d = f ())
    ∧ (t.options.default = none → v.isNullish = true → t.cast v d = .undefV) := by
  refine ⟨fun h => ?_, fun h => ?_, fun f hf h => ?_, fun hn h => ?_⟩ <;>
    simp [SchemaType.cast, SchemaType.defaultF, h]
  · rw [hf]
  · rw [hn]

/-- Witness for C6 at concrete inputs: a non-nullish value is kept, a
value default is substituted, a function default is invoked, and a
missing default yields undefined. -/
theorem c6_cast_default_witness :
    (({ name := "age" } : SchemaType).cast (.num 3) (.obj []) = .num 3)
    ∧ (({ name := "x", options := { default := some (.valD (.num 7)) } } : SchemaType).cast
        .null (.obj [])
        = ({ name := "x", options := { default := some (.valD (.num 7)) } } : SchemaType).defaultF ())
    ∧ (({ options := { default := some (.fnD fun _ => .num 9) } } : SchemaType).cast
        .undefV (.obj []) = (fun _ : Unit => Value.num 9) ())
    ∧ (({ name := "y" } : SchemaType).cast .null (.obj []) = .undefV) :=
  ⟨(c6_cast_default { name := "age" } (.num 3) (.obj [])).1 rfl,
   (c6_cast_default { name := "x", options := { default := some (.valD (.num 7)) } }
      .null (.obj [])).2.1 rfl,
   (c6_cast_default { options := { default := some (.fnD fun _ => .num 9) } }
      .undefV (.obj [])).2.2.1 _ rfl rfl,
   (c6_cast_default { name := "y" } .null (.obj [])).2.2.2 rfl rfl⟩

/-- C1: evaluating the inline-operator update of the claim,
`{$set: {age: 31}, $inc: {visits: 1}}` over Number-typed paths `age` and
`visits`.  Because `parseUpdate`'s inline branch indexes the inner field
list with the outer loop variable (`fields[i]`, not `fields[j]`), the
action compiled for the second operator targets `fields[1]` of
`{visits: 1}` — the host value `undefined`, not `visits` — so applying
the parsed update to `{age: 30, visits: 5}` throws in the accessor
instead of producing `{age: 31, visits: 6}`. -/
theorem c1_inline_update_indexing_bug :
    (parseUpdate pathsC1 updC1).map actionTarget = [some "age", none]
    ∧ (parseUpdate pathsC1 updC1).map actionMethod = [some "u$set", some "u$inc"]
    ∧ applyUpdates (parseUpdate pathsC1 updC1) docC1
        = .error (.typeError "path must be a string") := by
  refine ⟨?_, ?_, ?_⟩ <;>
    simp +decide [parseUpdate, parseUpdateGo, pathsC1, updC1, docC1, actionTarget, actionMethod,
      updateStackOperator, lookupOptKey, getFieldOpt, objKeys, objFields, lookupJs, applyUpdates,
      applyUAction, numberType, baseUop, baseSchemaType, getProp, setProp, splitOnChar,
      splitOnCharAux, getPropKeys, setPropKeys, jsInsert, List.replicate]

/-- C2, counterexample: compiling the query `{age: {$bogus: 1}}` (no
`q$bogus` on the base type at `age`) raises nothing — it returns a
one-predicate stack — and the "is not a function" TypeError is raised
only when the compiled predicate is applied to a document, contradicting
the claim that `_execQuery` itself errors at compile time. -/
theorem c2_unknown_op_compiles_then_fails :
    (parseQueryV [] [("age", .obj [("$bogus", .num 1)])]).length = 1
    ∧ execQueryFields [] [("age", .obj [("$bogus", .num 1)])] (.obj [("age", .num 30)])
        = .error (.typeError "path[q$bogus] is not a function") := by
  constructor <;>
    simp +decide [parseQueryV, parseQueryEntryV, parseNormalQueryV, execQueryFields, andLoop,
      applyClause, lookupPathD, lookupJs, baseSchemaType, baseQop]

/-- C2, amended: for a query `{name: {$op: v}}` whose SchemaType defines
no `q$op`, and an inline update `{$op: {field: v}}` whose SchemaType
defines no `u$op`, compilation succeeds and yields exactly one
operator clause/action; the "method not found" TypeError (naming the
operator) is raised when the compiled predicate or mutator is applied to
a document — the operator lookup is deferred to application time. -/
theorem c2_amended_op_lookup_at_apply_time :
    (∀ (paths : PathsMap) (name op : String) (v d : Value),
      name ∉ (["$and", "$or", "$nor", "$not", "$where"] : List String) →
      (lookupPathD paths name).qop ("q$" ++ op) = none →
      parseQueryV paths [(name, .obj [("$" ++ op, v)])]
          = [.opc (lookupPathD paths name) ("q$" ++ op) name v]
        ∧ execQueryFields paths [(name, .obj [("$" ++ op, v)])] d
          = .error (.typeError ("path[q$" ++ op ++ "] is not a function")))
    ∧ (∀ (paths : PathsMap) (field op : String) (v d : Value),
      (lookupPathD paths field).uop ("u$" ++ op) = none →
      parseUpdate paths [("$" ++ op, .obj [(field, v)])]
          = [.opA (lookupPathD paths field) ("u$" ++ op) (some field) v]
        ∧ applyUpdates (parseUpdate paths [("$" ++ op, .obj [(field, v)])]) d
          = .error (.typeError ("path[u$" ++ op ++ "] is not a function"))) := by
  have hd : ∀ op : String, ("$" ++ op).data = '$' :: op.data := by
    intro op
    rw [String.data_append]
    rfl
  have hfc : ∀ op : String, firstCharIs '$' ("$" ++ op) = true := by
    intro op
    simp [firstCharIs, hd]
  have hq : ∀ op : String, ("q" ++ ("$" ++ op) : String) = "q$" ++ op := by
    intro op
    rw [← String.append_assoc]
    rfl
  have hu : ∀ op : String, ("u" ++ ("$" ++ op) : String) = "u$" ++ op := by
    intro op
    rw [← String.append_assoc]
    rfl
  have hmq : ∀ s : String, ("path[" ++ ("q$" ++ s) : String) = "path[q$" ++ s := by
    intro s
    rw [← String.append_assoc]
    rfl
  have hmu : ∀ s : String, ("path[" ++ ("u$" ++ s) : String) = "path[u$" ++ s := by
    intro s
    rw [← String.append_assoc]
    rfl
  constructor
  · intro paths name op v d hname hqop
    simp only [List.mem_cons, List.mem_singleton, not_or] at hname
    obtain ⟨h1, h2, h3, h4, h5, -⟩ := hname
    have hstack : parseQueryV paths [(name, .obj [("$" ++ op, v)])]
        = [.opc (lookupPathD paths name) ("q$" ++ op) name v] := by
      cases v <;> simp [parseQueryV, parseQueryEntryV, parseNormalQueryV, h1, h2, h3, h4, h5, hfc, hq]
    refine ⟨hstack, ?_⟩
    simp [execQueryFields, hstack, andLoop, applyClause, hqop, hmq]
  · intro paths field op v d huop
    have hstack : parseUpdate paths [("$" ++ op, .obj [(field, v)])]
        = [.opA (lookupPathD paths field) ("u$" ++ op) (some field) v] := by
      simp [parseUpdate, parseUpdateGo, hfc, hu, updateStackOperator, lookupOptKey,
        getFieldOpt, objKeys, objFields, lookupJs, List.replicate, lookupPathD]
    refine ⟨hstack, ?_⟩
    simp [hstack, applyUpdates, applyUAction, huop, hmu]

/-- Witness for the amended C2 at concrete inputs: the unknown operator
`$bogus` on the unregistered path `age`, under both the query and the
update compiler. -/
theorem c2_amended_op_lookup_witness :
    (parseQueryV [] [("age", .obj [("$bogus", .num 1)])]
        = [.opc (lookupPathD [] "age") "q$bogus" "age" (.num 1)]
      ∧ execQueryFields [] [("age", .obj [("$bogus", .num 1)])] (.obj [])
        = .error (.typeError "path[q$bogus] is not a function"))
    ∧ (parseUpdate [] [("$bogus", .obj [("age", .num 1)])]
        = [.opA (lookupPathD [] "age") "u$bogus" (some "age") (.num 1)]
      ∧ applyUpdates (parseUpdate [] [("$bogus", .obj [("age", .num 1)])]) (.obj [])
        = .error (.typeError "path[u$bogus] is not a function")) :=
  ⟨c2_amended_op_lookup_at_apply_time.1 [] "age" "bogus" (.num 1) (.obj [])
      (by decide) rfl,
   c2_amended_op_lookup_at_apply_time.2 [] "age" "bogus" (.num 1) (.obj []) rfl⟩

/-- C10: a populate item with no model whose path names no registered
path makes `_parsePopulate` dereference the missing SchemaType and throw
a TypeError, not a PopulationError; by contrast, the lookup used by the
query, update and sort compilers synthesizes a base SchemaType for the
same unknown path. -/
theorem c10_populate_unknown_path_typeerror (paths : PathsMap) (k : String)
    (hk : k ≠ "") (hlook : lookupJs paths k = none) :
    parsePopulate paths (.objE { path := some k, model := none })
        = .error (.typeError "Cannot read properties of undefined")
    ∧ lookupPathD paths k = baseSchemaType k := by
  constructor
  · simp [parsePopulate, normalizePop, procItems, hk, hlook]
  · simp [lookupPathD, hlook]

/-- Witness for C10: populating the unregistered path `tags` on an empty
schema. -/
theorem c10_populate_unknown_path_witness :
    parsePopulate [] (.objE { path := some "tags", model := none })
        = .error (.typeError "Cannot read properties of undefined")
    ∧ lookupPathD [] "tags" = baseSchemaType "tags" :=
  c10_populate_unknown_path_typeerror [] "tags" (by decide) rfl

/-- One step of `_parsePopulate`'s checking loop on an item that passes
all checks: the item (with its model filled in) is prepended to the
result of the rest, and an error from the rest propagates. -/
theorem procItems_cons_ok (paths : PathsMap) (p : PopItem)
    (hp : itemOkP paths p = true) (l : List PopItem) :
    procItems paths (p :: l)
      = match procItems paths l with
        | .error e => .error e
        | .ok r => .ok (fillItem paths p :: r) := by
  cases hpath : p.path with
  | none => simp [itemOkP, hpath] at hp
  | some k =>
    simp only [itemOkP, hpath, Bool.and_eq_true, decide_eq_true_eq] at hp
    obtain ⟨hk, hmodel⟩ := hp
    cases hm : p.model with
    | some m =>
        simp [procItems, hpath, hk, hm, fillItem]
    | none =>
        rw [hm] at hmodel
        simp only [Option.isSome_none, Bool.false_or] at hmodel
        cases hl : lookupJs paths k with
        | none => rw [hl] at hmodel; simp at hmodel
        | some t =>
            rw [hl] at hmodel
            have href : (refOfType t).isSome = true := by simpa using hmodel
            obtain ⟨r, hr⟩ := Option.isSome_iff_exists.mp href
            simp [procItems, hpath, hk, hm, hl, hr, fillItem]

/-- `_parsePopulate`'s checking loop on a list of passing items returns
them all, in order, with models filled in. -/
theorem procItems_all_ok (paths : PathsMap) :
    ∀ items : List PopItem, items.all (itemOkP paths) = true →
      procItems paths items = .ok (items.map (fillItem paths)) := by
  intro items
  induction items with
  | nil => intro _; rfl
  | cons it rest ih =>
      intro h
      simp only [List.all_cons, Bool.and_eq_true] at h
      obtain ⟨hit, hrest⟩ := h
      rw [procItems_cons_ok paths it hit, ih hrest]
      rfl

/-- C9: for every populate expression whose normalized items all pass the
checks, `_parsePopulate` returns one descriptor per item in input order
with the model taken from the registered type's (or its array child's)
`options.ref`; an item with a falsy path raises
`PopulationError("path is required")`; an item with no model whose
registered type (or child) has no ref raises
`PopulationError("model is required")` (each error case stated for the
first offending item, the processing order of the loop). -/
theorem c9_parse_populate :
    (∀ (paths : PathsMap) (expr : PopExpr),
      (normalizePop expr).all (itemOkP paths) = true →
      parsePopulate paths expr = .ok ((normalizePop expr).map (fillItem paths)))
    ∧ (∀ (paths : PathsMap) (pre : List PopItem) (it : PopItem) (post : List PopItem),
      pre.all (itemOkP paths) = true →
      (it.path = none ∨ it.path = some "") →
      procItems paths (pre ++ it :: post) = .error (.populationError "path is required"))
    ∧ (∀ (paths : PathsMap) (pre : List PopItem) (it : PopItem) (post : List PopItem)
        (k : String) (t : SchemaType),
      pre.all (itemOkP paths) = true →
      it.path = some k → k ≠ "" → it.model = none →
      lookupJs paths k = some t → refOfType t = none →
      procItems paths (pre ++ it :: post) = .error (.populationError "model is required")) := by
  refine ⟨?_, ?_, ?_⟩
  · intro paths expr h
    exact procItems_all_ok paths _ h
  · intro paths pre it post hpre hit
    induction pre with
    | nil =>
        rcases hit with h | h <;> simp [procItems, h]
    | cons p pre' ih =>
        simp only [List.all_cons, Bool.and_eq_true] at hpre
        obtain ⟨hp, hpre'⟩ := hpre
        rw [List.cons_append, procItems_cons_ok paths p hp, ih hpre']
  · intro paths pre it post k t hpre hpath hk hm hl href
    induction pre with
    | nil => simp [procItems, hpath, hk, hm, hl, href]
    | cons p pre' ih =>
        simp only [List.all_cons, Bool.and_eq_true] at hpre
        obtain ⟨hp, hpre'⟩ := hpre
        rw [List.cons_append, procItems_cons_ok paths p hp, ih hpre']

/-- Witness for C9: a successful populate over `author` (ref `User`), a
missing-path item, and a ref-less registered path `tags`. -/
theorem c9_parse_populate_witness :
    parsePopulate [("author", { name := "author", options := { ref := some "User" } })]
        (.strE "author")
      = .ok ((normalizePop (.strE "author")).map
          (fillItem [("author", { name := "author", options := { ref := some "User" } })]))
    ∧ procItems [] [{ path := none, model := none }]
        = .error (.populationError "path is required")
    ∧ procItems [("tags", baseSchemaType "tags")] [{ path := some "tags", model := none }]
        = .error (.populationError "model is required") :=
  ⟨c9_parse_populate.1 _ (.strE "author") (by rfl),
   c9_parse_populate.2.1 [] [] { path := none, model := none } [] rfl (Or.inl rfl),
   c9_parse_populate.2.2 [("tags", baseSchemaType "tags")] [] { path := some "tags", model := none }
     [] "tags" (baseSchemaType "tags") rfl rfl (by decide) rfl rfl rfl⟩

/-- C7: `validate` throws a ValidationError whose message names the field
exactly when the type is required and the value is null/undefined, and
returns the value unchanged otherwise; an error thrown by a setter
closure propagates uncaught through `_applySetters` (any passing stack
prefix notwithstanding). -/
theorem c7_validate_required_propagates :
    (∀ (t : SchemaType) (v d : Value),
      (t.validate v d = .error (.validationError ("`" ++ t.name ++ "` is required!"))
        ↔ (t.options.required && v.isNullish) = true)
      ∧ ((t.options.required && v.isNullish) = false → t.validate v d = .ok v))
    ∧ (∀ (pre : List (String × SchemaType)) (name : String) (t : SchemaType)
        (post : List (String × SchemaType)) (d d₁ : Value) (e : JsErr),
      applySettersList pre d = .ok d₁ →
      setterStep name t d₁ = .error e →
      applySettersList (pre ++ (name, t) :: post) d = .error e) := by
  constructor
  · intro t v d
    by_cases hc : (t.options.required && v.isNullish) = true
    · simp [SchemaType.validate, hc]
    · simp only [Bool.not_eq_true] at hc
      simp [SchemaType.validate, hc]
  · intro pre name t post d d₁ e hpre hstep
    induction pre generalizing d with
    | nil =>
        simp only [applySettersList] at hpre
        cases hpre
        simp [applySettersList, hstep]
    | cons p pre' ih =>
        cases p with
        | mk n' t' =>
          simp only [applySettersList] at hpre
          cases hs : setterStep n' t' d with
          | error e' => rw [hs] at hpre; cases hpre
          | ok d2 =>
              rw [hs] at hpre
              rw [List.cons_append]
              simp only [applySettersList, hs]
              exact ih d2 hpre

/-- Witness for C7: a required field `age` missing from the document
makes `validate` (and `_applySetters` after a passing prefix) fail with
the ValidationError naming `age`; an optional field passes through. -/
theorem c7_validate_required_witness :
    (({ name := "age", options := { required := true } } : SchemaType).validate .undefV (.obj [])
        = .error (.validationError "`age` is required!"))
    ∧ (({ name := "x" } : SchemaType).validate (.num 2) (.obj []) = .ok (.num 2))
    ∧ applySettersList
        [("a", baseSchemaType "a"), ("age", { name := "age", options := { required := true } })]
        (.obj [("a", .num 1)])
        = .error (.validationError "`age` is required!") :=
  ⟨((c7_validate_required_propagates.1 { name := "age", options := { required := true } }
      .undefV (.obj [])).1).mpr rfl,
   (c7_validate_required_propagates.1 { name := "x" } (.num 2) (.obj [])).2 rfl,
   c7_validate_required_propagates.2 [("a", baseSchemaType "a")] "age"
     { name := "age", options := { required := true } } [] (.obj [("a", .num 1)])
     (.obj [("a", .num 1)]) (.validationError "`age` is required!") rfl rfl⟩

/-- Prepending the empty string leaves a string unchanged. -/
theorem str_empty_append (s : String) : "" ++ s = s := by
  cases s with
  | mk d => rfl

/-- The descending test of `sortStack` agrees with `isDescDir`. -/
theorem sortStack_descending_eq (d : SortDir) :
    ((d = SortDir.str "desc" || d = SortDir.num (-1)) : Bool) = isDescDir d := by
  cases d <;> simp [isDescDir]

/-- The closure built by `sortStack` computes the spec's per-entry
comparator: the SchemaType's `compare` at the path, negated for a
descending direction. -/
theorem applySortCmp_sortStack (paths : PathsMap) (k : String) (d : SortDir) (a b : Value) :
    applySortCmp (sortStack (lookupJs paths k) k d) a b = specEntryCmp paths k d a b := by
  simp only [applySortCmp, sortStack, specEntryCmp, sortStack_descending_eq]
  by_cases hdesc : isDescDir d = true
  · simp only [hdesc, Bool.true_and]
    by_cases hr : ((lookupJs paths k).getD (baseSchemaType k)).compare (getProp a k) (getProp b k) = 0
    · simp [hr]
    · simp [hr]
  · simp only [Bool.not_eq_true] at hdesc
    simp [hdesc]

/-- `_parseSort` on a sort document of scalar directions compiles one
`sortStack` comparator per entry, in declaration order. -/
theorem parseSortD_scalar (paths : PathsMap) (pfx : String) :
    ∀ entries : List (String × SortDir),
      parseSortD paths pfx (entries.map fun p => (p.1, SortV.dir p.2))
        = entries.map fun p => sortStack (lookupJs paths (pfx ++ p.1)) (pfx ++ p.1) p.2 := by
  intro entries
  induction entries with
  | nil => simp [parseSortD]
  | cons e rest ih =>
      cases e with
      | mk k dr => simp [parseSortD, ih]

/-- The `execSortStack` loop over the compiled comparators returns the
first non-zero spec comparator result, in order. -/
theorem execSortStack_spec (paths : PathsMap) :
    ∀ (entries : List (String × SortDir)) (a b : Value), entries ≠ [] →
      execSortStack (entries.map fun p => sortStack (lookupJs paths p.1) p.1 p.2) a b
        = some (specSortCmp paths entries a b) := by
  intro entries
  induction entries with
  | nil => intro a b h; exact absurd rfl h
  | cons e rest ih =>
      intro a b _
      cases e with
      | mk k dr =>
        cases rest with
        | nil =>
            simp only [List.map_cons, List.map_nil, execSortStack, applySortCmp_sortStack]
            by_cases hr : specEntryCmp paths k dr a b = 0 <;> simp [specSortCmp, hr]
        | cons e2 rest' =>
            simp only [List.map_cons, execSortStack, applySortCmp_sortStack]
            by_cases hr : specEntryCmp paths k dr a b = 0
            · rw [if_neg (by simp [hr])]
              have h2 := ih a b (List.cons_ne_nil e2 rest')
              simp only [List.map_cons] at h2
              rw [h2]
              congr 1
              simp [specSortCmp, hr]
            · rw [if_pos (by simp [hr])]
              simp [specSortCmp, hr]

/-- C8: for every non-empty sort document of scalar directions,
`_execSort` returns the comparator that evaluates the per-path
comparators in declaration order and returns the first non-zero result,
where each per-path comparator is the SchemaType's `compare` on the
values extracted at the path, negated for `-1`/`"desc"`; and the
compiled comparator for a descending path is exactly the negation of the
`compare` result. -/
theorem c8_sort_first_nonzero (paths : PathsMap) (entries : List (String × SortDir))
    (a b : Value) (hne : entries ≠ []) :
    execSortD paths (entries.map fun p => (p.1, SortV.dir p.2)) a b
      = some (specSortCmp paths entries a b)
    ∧ (∀ k : String, applySortCmp (sortStack (lookupJs paths k) k (.num (-1))) a b
        = -(((lookupJs paths k).getD (baseSchemaType k)).compare (getProp a k) (getProp b k))) := by
  constructor
  · rw [execSortD, parseSortD_scalar]
    have hentries :
        (entries.map fun p => sortStack (lookupJs paths ("" ++ p.1)) ("" ++ p.1) p.2)
          = entries.map fun p => sortStack (lookupJs paths p.1) p.1 p.2 := by
      apply List.map_congr_left
      intro p _
      rw [str_empty_append]
    rw [hentries]
    exact execSortStack_spec paths entries a b hne
  · intro k
    rw [applySortCmp_sortStack]
    simp [specEntryCmp, isDescDir]

/-- Witness for C8: sorting by `age` descending then `name` ascending on
two concrete documents. -/
theorem c8_sort_first_nonzero_witness :
    execSortD [] ([("age", SortDir.num (-1)), ("name", SortDir.num 1)].map
        fun p => (p.1, SortV.dir p.2)) (.obj [("age", .num 30), ("name", .str "B")])
        (.obj [("age", .num 40), ("name", .str "A")])
      = some (specSortCmp [] [("age", SortDir.num (-1)), ("name", SortDir.num 1)]
          (.obj [("age", .num 30), ("name", .str "B")])
          (.obj [("age", .num 40), ("name", .str "A")])) :=
  (c8_sort_first_nonzero [] [("age", SortDir.num (-1)), ("name", SortDir.num 1)]
    (.obj [("age", .num 30), ("name", .str "B")])
    (.obj [("age", .num 40), ("name", .str "A")]) (by simp)).1

/-- The `$nor` loop is the pointwise Boolean negation of the `$or` loop
over the same compiled stack (both run the predicates in the same order,
so they also fail identically). -/
theorem norLoop_eq_not_orLoop (cs : List Clause) (d : Value) :
    norLoop cs d = (orLoop cs d).map (fun b => !b) := by
  induction cs with
  | nil => simp [norLoop, orLoop, Except.map]
  | cons c rest ih =>
      simp only [norLoop, orLoop]
      cases h : applyClause c d with
      | error e => simp [Except.map]
      | ok b => cases b <;> simp [Except.map, ih]

/-- The `$not` loop is the pointwise Boolean negation of the conjunction
loop of `execQuery` over the same compiled stack. -/
theorem notLoop_eq_not_andLoop (cs : List Clause) (d : Value) :
    notLoop cs d = (andLoop cs d).map (fun b => !b) := by
  induction cs with
  | nil => simp [notLoop, andLoop, Except.map]
  | cons c rest ih =>
      simp only [notLoop, andLoop]
      cases h : applyClause c d with
      | error e => simp [Except.map]
      | ok b => cases b <;> simp [Except.map, ih]

/-- The conjunction loop over a one-clause stack is that clause. -/
theorem andLoop_singleton (c : Clause) (d : Value) : andLoop [c] d = applyClause c d := by
  simp only [andLoop]
  cases h : applyClause c d with
  | error e => simp
  | ok b => cases b <;> simp [andLoop]

/-- C5: for every array `Q` of sub-queries and document `d`,
`_execQuery({$nor: Q})(d)` is the negation of `_execQuery({$or: Q})(d)`
(and they error identically); and for every query document `q`,
`_execQuery({$not: q})(d)` is the negation of `_execQuery(q)(d)` — the
`$not` predicate passes exactly when some predicate compiled from `q`
fails. -/
theorem c5_nor_or_not_duality (paths : PathsMap) (qs : List Value)
    (q : List (String × Value)) (d : Value) :
    execQueryFields paths [("$nor", .arr qs)] d
      = (execQueryFields paths [("$or", .arr qs)] d).map (fun b => !b)
    ∧ execQueryFields paths [("$not", .obj q)] d
      = (execQueryFields paths q d).map (fun b => !b) := by
  constructor
  · have h1 : parseQueryV paths [("$nor", .arr qs)] = [.norc (parseAndArr paths qs)] := by
      simp +decide [parseQueryV, parseQueryEntryV]
    have h2 : parseQueryV paths [("$or", .arr qs)] = [.orc (parseAndArr paths qs)] := by
      simp +decide [parseQueryV, parseQueryEntryV]
    rw [execQueryFields, execQueryFields, h1, h2, andLoop_singleton, andLoop_singleton]
    rw [show applyClause (.norc (parseAndArr paths qs)) d = norLoop (parseAndArr paths qs) d
        from by simp [applyClause]]
    rw [show applyClause (.orc (parseAndArr paths qs)) d = orLoop (parseAndArr paths qs) d
        from by simp [applyClause]]
    exact norLoop_eq_not_orLoop _ _
  · have h1 : parseQueryV paths [("$not", .obj q)] = [.notc (parseQueryV paths q)] := by
      simp +decide [parseQueryV, parseQueryEntryV]
    rw [execQueryFields, execQueryFields, h1, andLoop_singleton]
    rw [show applyClause (.notc (parseQueryV paths q)) d = notLoop (parseQueryV paths q) d
        from by simp [applyClause]]
    exact notLoop_eq_not_andLoop _ _

/-- C3, counterexample: registering the same path name `a` twice (one
`add` call each) leaves one key in `paths` but pushes a second closure
onto every stack, so after the second `add` completes the stack lengths
are 2 while `|paths|` is 1. -/
theorem c3_stack_length_counterexample :
    (applyAdds {} [[("a", .inst (baseSchemaType "a"))],
        [("a", .inst (baseSchemaType "a"))]]).paths.length = 1
    ∧ (applyAdds {} [[("a", .inst (baseSchemaType "a"))],
        [("a", .inst (baseSchemaType "a"))]]).getterS.length = 2
    ∧ (applyAdds {} [[("a", .inst (baseSchemaType "a"))],
        [("a", .inst (baseSchemaType "a"))]]).setterS.length = 2
    ∧ (applyAdds {} [[("a", .inst (baseSchemaType "a"))],
        [("a", .inst (baseSchemaType "a"))]]).importS.length = 2
    ∧ (applyAdds {} [[("a", .inst (baseSchemaType "a"))],
        [("a", .inst (baseSchemaType "a"))]]).exportS.length = 2 := by
  refine ⟨?_, ?_, ?_, ?_, ?_⟩ <;>
    simp +decide [applyAdds, addMany, pathOne, installPath, updateStackS, jsInsert]

/-- Inserting a key with JavaScript object semantics keeps the key list
unchanged when the key is present and appends it otherwise. -/
theorem jsInsert_map_fst {α : Type} (l : List (String × α)) (k : String) (v : α) :
    (jsInsert l k v).map Prod.fst
      = if k ∈ l.map Prod.fst then l.map Prod.fst else l.map Prod.fst ++ [k] := by
  induction l with
  | nil => simp [jsInsert]
  | cons p rest ih =>
      cases p with
      | mk k' w =>
        by_cases hk : k' = k
        · subst hk
          simp [jsInsert]
        · have hk' : ¬(k = k') := fun h => hk h.symm
          simp only [jsInsert, if_neg hk, List.map_cons]
          rw [ih]
          by_cases hmem : k ∈ rest.map Prod.fst <;> simp [hmem, hk']

/-- Folding key insertion over a concatenation is insertion of the two
lists in turn. -/
theorem insertKeys_append (l1 : List String) : ∀ (ks l2 : List String),
    insertKeys ks (l1 ++ l2) = insertKeys (insertKeys ks l1) l2 := by
  induction l1 with
  | nil => intro ks l2; rfl
  | cons n rest ih =>
      intro ks l2
      simp only [List.cons_append, insertKeys]
      exact ih _ _

/-- Folding key insertion of pairwise-distinct fresh keys grows the key
list by exactly their number. -/
theorem insertKeys_length_nodup : ∀ (names ks : List String),
    names.Nodup → (∀ n ∈ names, n ∉ ks) →
    (insertKeys ks names).length = ks.length + names.length := by
  intro names
  induction names with
  | nil => intro ks _ _; rfl
  | cons n rest ih =>
      intro ks hnodup hfresh
      simp only [List.nodup_cons] at hnodup
      obtain ⟨hn, hrest⟩ := hnodup
      have hnks : n ∉ ks := hfresh n (List.mem_cons_self n rest)
      simp only [insertKeys, if_neg hnks]
      rw [ih (ks ++ [n]) hrest ?fresh]
      · simp only [List.length_append, List.length_cons, List.length_nil]
        omega
      case fresh =>
        intro m hm
        have hmks : m ∉ ks := hfresh m (List.mem_cons_of_mem _ hm)
        have hmn : m ≠ n := fun h => hn (h ▸ hm)
        simp [List.mem_append, hmks, hmn]

mutual

/-- Effect of one `path` installation on the stack lengths and the key
list of `paths`: every stack grows by the number of installed names, and
the keys evolve by JavaScript-object insertion of those names in
preorder. -/
theorem pathOne_inv (s : SchemaState) (name : String) (d : Decl) :
    (pathOne s name d).getterS.length = s.getterS.length + (declNames name d).length
    ∧ (pathOne s name d).setterS.length = s.setterS.length + (declNames name d).length
    ∧ (pathOne s name d).importS.length = s.importS.length + (declNames name d).length
    ∧ (pathOne s name d).exportS.length = s.exportS.length + (declNames name d).length
    ∧ (pathOne s name d).paths.map Prod.fst
        = insertKeys (s.paths.map Prod.fst) (declNames name d) := by
  cases d with
  | inst t =>
      refine ⟨?_, ?_, ?_, ?_, ?_⟩ <;>
        simp [pathOne, installPath, updateStackS, declNames, insertKeys, jsInsert_map_fst]
  | fnDecl mk =>
      refine ⟨?_, ?_, ?_, ?_, ?_⟩ <;>
        simp [pathOne, installPath, updateStackS, declNames, insertKeys, jsInsert_map_fst]
  | arrDecl childMk =>
      cases childMk <;>
        refine ⟨?_, ?_, ?_, ?_, ?_⟩ <;>
          simp [pathOne, installPath, updateStackS, declNames, insertKeys, jsInsert_map_fst]
  | typedDecl mk =>
      refine ⟨?_, ?_, ?_, ?_, ?_⟩ <;>
        simp [pathOne, installPath, updateStackS, declNames, insertKeys, jsInsert_map_fst]
  | objDecl fields =>
      have hbase := addMany_inv (installPath s name objectType) (name ++ ".") fields
      obtain ⟨h1, h2, h3, h4, h5⟩ := hbase
      have hp : pathOne s name (.objDecl fields)
          = addMany (installPath s name objectType) (name ++ ".") fields := by
        simp [pathOne]
      have hnames : declNames name (.objDecl fields)
          = name :: manyNames (name ++ ".") fields := by
        simp [declNames]
      rw [hp, hnames]
      refine ⟨?_, ?_, ?_, ?_, ?_⟩
      · rw [h1]; simp [installPath, updateStackS]; omega
      · rw [h2]; simp [installPath, updateStackS]; omega
      · rw [h3]; simp [installPath, updateStackS]; omega
      · rw [h4]; simp [installPath, updateStackS]; omega
      · rw [h5]
        simp only [installPath, updateStackS, insertKeys, jsInsert_map_fst]
termination_by sizeOf d

/-- Effect of one `add` call on the stack lengths and the key list of
`paths`. -/
theorem addMany_inv (s : SchemaState) (pfx : String) (fields : List (String × Decl)) :
    (addMany s pfx fields).getterS.length = s.getterS.length + (manyNames pfx fields).length
    ∧ (addMany s pfx fields).setterS.length = s.setterS.length + (manyNames pfx fields).length
    ∧ (addMany s pfx fields).importS.length = s.importS.length + (manyNames pfx fields).length
    ∧ (addMany s pfx fields).exportS.length = s.exportS.length + (manyNames pfx fields).length
    ∧ (addMany s pfx fields).paths.map Prod.fst
        = insertKeys (s.paths.map Prod.fst) (manyNames pfx fields) := by
  cases fields with
  | nil =>
      refine ⟨?_, ?_, ?_, ?_, ?_⟩ <;> simp [addMany, manyNames, insertKeys]
  | cons p rest =>
      cases p with
      | mk key d =>
        have hhead := pathOne_inv s (pfx ++ key) d
        obtain ⟨g1, g2, g3, g4, g5⟩ := hhead
        have htail := addMany_inv (pathOne s (pfx ++ key) d) pfx rest
        obtain ⟨t1, t2, t3, t4, t5⟩ := htail
        have ha : addMany s pfx ((key, d) :: rest)
            = addMany (pathOne s (pfx ++ key) d) pfx rest := by
          simp [addMany]
        have hn : manyNames pfx ((key, d) :: rest)
            = declNames (pfx ++ key) d ++ manyNames pfx rest := by
          simp [manyNames]
        rw [ha, hn]
        refine ⟨?_, ?_, ?_, ?_, ?_⟩
        · rw [t1, g1]; simp [List.length_append]; omega
        · rw [t2, g2]; simp [List.length_append]; omega
        · rw [t3, g3]; simp [List.length_append]; omega
        · rw [t4, g4]; simp [List.length_append]; omega
        · rw [t5, g5, insertKeys_append]
termination_by sizeOf fields

end

/-- Effect of a sequence of `add` calls on the stack lengths and the key
list of `paths`. -/
theorem applyAdds_inv : ∀ (adds : List (List (String × Decl))) (s : SchemaState),
    (applyAdds s adds).getterS.length = s.getterS.length + (addsNames adds).length
    ∧ (applyAdds s adds).setterS.length = s.setterS.length + (addsNames adds).length
    ∧ (applyAdds s adds).importS.length = s.importS.length + (addsNames adds).length
    ∧ (applyAdds s adds).exportS.length = s.exportS.length + (addsNames adds).length
    ∧ (applyAdds s adds).paths.map Prod.fst
        = insertKeys (s.paths.map Prod.fst) (addsNames adds) := by
  intro adds
  induction adds with
  | nil =>
      intro s
      refine ⟨?_, ?_, ?_, ?_, ?_⟩ <;> simp [applyAdds, addsNames, insertKeys]
  | cons decl rest ih =>
      intro s
      have hstep := addMany_inv s "" decl
      obtain ⟨g1, g2, g3, g4, g5⟩ := hstep
      have htail := ih (addMany s "" decl)
      obtain ⟨t1, t2, t3, t4, t5⟩ := htail
      have ha : applyAdds s (decl :: rest) = applyAdds (addMany s "" decl) rest := by
        simp [applyAdds]
      have hn : addsNames (decl :: rest) = manyNames "" decl ++ addsNames rest := by
        simp [addsNames]
      rw [ha, hn]
      refine ⟨?_, ?_, ?_, ?_, ?_⟩
      · rw [t1, g1]; simp [List.length_append]; omega
      · rw [t2, g2]; simp [List.length_append]; omega
      · rw [t3, g3]; simp [List.length_append]; omega
      · rw [t4, g4]; simp [List.length_append]; omega
      · rw [t5, g5, insertKeys_append]

/-- C3, amended: after any sequence of `add` calls on a fresh schema the
four stacks always have equal lengths, and when the installed path names
are pairwise distinct (the counterexample's duplicate registration being
the only way to break it), `|paths|` equals that common stack length. -/
theorem c3_amended_stack_length_invariant (adds : List (List (String × Decl))) :
    ((applyAdds {} adds).getterS.length = (applyAdds {} adds).setterS.length
      ∧ (applyAdds {} adds).setterS.length = (applyAdds {} adds).importS.length
      ∧ (applyAdds {} adds).importS.length = (applyAdds {} adds).exportS.length)
    ∧ ((addsNames adds).Nodup →
        (applyAdds {} adds).paths.length = (applyAdds {} adds).getterS.length) := by
  obtain ⟨h1, h2, h3, h4, h5⟩ := applyAdds_inv adds {}
  have e1 : ({} : SchemaState).getterS.length = 0 := rfl
  have e2 : ({} : SchemaState).setterS.length = 0 := rfl
  have e3 : ({} : SchemaState).importS.length = 0 := rfl
  have e4 : ({} : SchemaState).exportS.length = 0 := rfl
  constructor
  · refine ⟨?_, ?_, ?_⟩ <;> omega
  · intro hnodup
    have hfresh : ∀ n ∈ addsNames adds, n ∉ (({} : SchemaState).paths.map Prod.fst) := by
      intro n _
      simp
    have hlen := insertKeys_length_nodup (addsNames adds)
      (({} : SchemaState).paths.map Prod.fst) hnodup hfresh
    have hml : (applyAdds {} adds).paths.length
        = ((applyAdds {} adds).paths.map Prod.fst).length := by
      rw [List.length_map]
    rw [hml, h5, hlen]
    have e5 : (({} : SchemaState).paths.map Prod.fst).length = 0 := rfl
    omega

/-- Witness for the amended C3: two `add` calls installing the distinct
paths `a` and `b`. -/
theorem c3_amended_stack_length_witness :
    (applyAdds {} [[("a", .inst (baseSchemaType "a"))], [("b", .inst (baseSchemaType "b"))]]).paths.length
      = (applyAdds {} [[("a", .inst (baseSchemaType "a"))], [("b", .inst (baseSchemaType "b"))]]).getterS.length :=
  (c3_amended_stack_length_invariant
      [[("a", .inst (baseSchemaType "a"))], [("b", .inst (baseSchemaType "b"))]]).2
    (by simp +decide [addsNames, manyNames, declNames])
